import Mathlib

/-!
Shallow embedding of `src/login_page.py`, a Streamlit tool that uploads
photographs, captions each one through a remote vision model, and renders a
paginated report document.

Modelling conventions:
* Python strings are `List Char` (abbreviated `Str`).
* The remote chat-completion call is an oracle `Nat → ApiOutcome` giving the
  outcome of each attempt for one image (success text, rate-limit error, or
  any other exception).
* The `tiktoken` tokenizer is an abstract token-counting function
  `Str → Nat`; monetary amounts are exact rationals.
* Sleeping is recorded (the list of slept durations) rather than performed;
  document side effects are recorded as a list of `Block`s.
-/

abbrev Str := List Char

/-- The whitespace characters removed by Python `str.strip()`:
space, tab, newline, carriage return, vertical tab, form feed. -/
def isPySpace (c : Char) : Bool :=
  c == ' ' || c == '\t' || c == '\n' || c == '\r' || c.toNat == 11 || c.toNat == 12

/-- Python `str.strip()`: drop whitespace from both ends. -/
def pyStrip (s : Str) : Str :=
  ((s.dropWhile isPySpace).reverse.dropWhile isPySpace).reverse

/-- Python `str.capitalize()`: first character uppercased, every following
character lowercased (ASCII fragment, which covers the basic-latin captions). -/
def pyCapitalize : Str → Str
  | [] => []
  | c :: cs => c.toUpper :: cs.map Char.toLower

/-- `build_prompt()` from the source: the fixed instructional prompt. -/
def build_prompt : Str :=
  ("As a civil engineer, I have some photos and would like to classify them into different categories before starting a project. "
    ++ "Find if it contains any visible cracks, peeling paint, possible water damage, visual discoloration, honeycombing, spalling or any other possible damage. "
    ++ "If nothing, then just mention a statement about the image. Sound it technical and to the point.").data

/-- Python `round(x, 6)` modelled over exact rationals: round to 6 decimals. -/
def roundTo6 (x : ℚ) : ℚ :=
  (round (x * 1000000) : ℚ) / 1000000

/-- `estimate_cost` from the source, with the `tiktoken` encoder abstracted as
a token-counting function `tok`:
`round(in_tokens * 0.005/1000 + out_tokens * 0.015/1000, 6)`. -/
def estimate_cost (tok : Str → Nat) (prompt_text response_text : Str) : ℚ :=
  roundTo6 ((tok prompt_text : ℚ) * (5 / 1000) / 1000
    + (tok response_text : ℚ) * (15 / 1000) / 1000)

/-- Outcome of one remote chat-completion attempt: a successful response with
its text, a `RateLimitError`, or any other exception with its message. -/
inductive ApiOutcome where
  | success (text : Str)
  | rateLimited
  | apiError (msg : Str)

/-- Lines 85-87 of the source: `resp.choices[0].message.content.strip().capitalize()`
followed by appending `"."` when the result does not already end with it. -/
def normalizeCaption (text : Str) : Str :=
  let comment := pyCapitalize (pyStrip text)
  if comment.getLast? == some '.' then comment else comment ++ ['.']

/-- Line 96 of the source: `f"... Error analyzing image: {e}"` fallback. -/
def errorCaption (msg : Str) : Str :=
  "‚ö†Ô∏è Error analyzing image: ".data ++ msg

/-- Line 100 of the source: the caption used when retries are exhausted and
the `comment` local was never assigned in the run. -/
def fallbackCaption : Str :=
  "‚ö†Ô∏è Could not analyze image after retries.".data

/-- Result of the `for attempt in range(retries)` loop for one image:
the `success` flag, the value of the `comment` local after the loop (it may
still hold the value carried in from a previous image, hence `Option`),
the cost charged inside the loop, the recorded sleep durations, and how many
remote calls were made. -/
structure AttemptResult where
  success : Bool
  comment : Option Str
  cost : ℚ
  sleeps : List Nat
  calls : Nat

/-- Lines 70-97 of the source: the retry loop for one image.  `comment` is the
current value of the function-scoped `comment` local, `attempt` the current
attempt index, `remaining` the attempts left out of `retries = 3`, and `delay`
the current backoff delay (initially 5, doubled after each rate limit). -/
def runAttempts (tok : Str → Nat) (oracle : Nat → ApiOutcome)
    (comment : Option Str) (attempt remaining delay : Nat) : AttemptResult :=
  match remaining with
  | 0 => ⟨false, comment, 0, [], 0⟩
  | r + 1 =>
    match oracle attempt with
    | ApiOutcome.success text =>
      let c := normalizeCaption text
      ⟨true, some c, estimate_cost tok build_prompt c, [], 1⟩
    | ApiOutcome.rateLimited =>
      let rest := runAttempts tok oracle comment (attempt + 1) r (delay * 2)
      ⟨rest.success, rest.comment, rest.cost, delay :: rest.sleeps, rest.calls + 1⟩
    | ApiOutcome.apiError msg =>
      ⟨false, some (errorCaption msg), 0, [], 1⟩

/-- What one iteration of the image loop produces: the caption placed in the
document, the success flag, the cost added to `total_cost`, and the retry
bookkeeping. -/
structure ImageStep where
  caption : Str
  success : Bool
  cost : ℚ
  sleeps : List Nat
  calls : Nat

/-- Lines 66-100 of the source: run the retry loop (retries = 3, delay = 5)
and apply the `if not success: comment = comment if 'comment' in locals()
else "... Could not analyze image after retries."` fixup. -/
def processImage (tok : Str → Nat) (comment : Option Str)
    (oracle : Nat → ApiOutcome) : ImageStep :=
  let r := runAttempts tok oracle comment 0 3 5
  let cap :=
    match r.comment with
    | some c => c
    | none => fallbackCaption
  ⟨cap, r.success, r.cost, r.sleeps, r.calls⟩

/-- A paragraph or page break added to the docx document. -/
inductive Block where
  | numberPara (idx : Nat)
  | imagePara (path : Str)
  | captionPara (text : Str)
  | blankPara
  | pageBreak
deriving DecidableEq

/-- One report entry: 1-based index, image path, and its caption. -/
structure Entry where
  idx : Nat
  path : Str
  caption : Str
deriving DecidableEq

/-- The mutable locals of `generate_report` while iterating:
`total_cost`, the `comment` variable (unassigned at first), the
`images_on_page` counter, the document blocks added so far, and the entries
(index, path, caption) they describe. -/
structure RunState where
  totalCost : ℚ
  comment : Option Str
  imagesOnPage : Nat
  blocks : List Block
  entries : List Entry

def initState : RunState := ⟨0, none, 0, [], []⟩

/-- One image to process: its path together with the oracle giving the
outcome of each remote attempt for it. -/
abbrev ImageJob := Str × (Nat → ApiOutcome)

/-- Lines 64-118 of the source: the body of
`for idx, img_path in enumerate(image_paths, start=1)` for one image —
retry loop, caption fixup, cost accumulation, the four paragraphs added for
the entry, and the page break after every second entry. -/
def stepImage (tok : Str → Nat) (st : RunState) (idx : Nat) (job : ImageJob) :
    RunState :=
  let r := processImage tok st.comment job.2
  let st1 : RunState :=
    ⟨st.totalCost + r.cost, some r.caption, st.imagesOnPage + 1,
      st.blocks ++ [Block.numberPara idx, Block.imagePara job.1,
        Block.captionPara ("Assessment: ".data ++ r.caption), Block.blankPara],
      st.entries ++ [⟨idx, job.1, r.caption⟩]⟩
  if st1.imagesOnPage == 2 then
    { st1 with blocks := st1.blocks ++ [Block.pageBreak], imagesOnPage := 0 }
  else st1

/-- The image loop of `generate_report`, indices starting at 1. -/
def runBatch (tok : Str → Nat) : List ImageJob → Nat → RunState → RunState
  | [], _, st => st
  | job :: rest, idx, st => runBatch tok rest (idx + 1) (stepImage tok st idx job)

/-- `generate_report` from the source: process every image in order and
return the final state (total cost, document blocks, entries). -/
def generate_report (tok : Str → Nat) (image_jobs : List ImageJob) : RunState :=
  runBatch tok image_jobs 1 initState

/-- `total_cost` after the first `k` images of a run have been processed. -/
def costAfter (tok : Str → Nat) (jobs : List ImageJob) (k : Nat) : ℚ :=
  (runBatch tok (jobs.take k) 1 initState).totalCost

/-- Recognizer for page-break blocks. -/
def isPageBreak : Block → Bool
  | Block.pageBreak => true
  | _ => false

/-- Number of page breaks in a block list. -/
def countBreaks (bs : List Block) : Nat :=
  bs.countP isPageBreak

/-- The entries of a run, computed directly: the caption state threads from
one image to the next exactly as the `comment` local does. -/
def batchEntries (tok : Str → Nat) : Option Str → Nat → List ImageJob → List Entry
  | _, _, [] => []
  | comment, idx, job :: rest =>
    let r := processImage tok comment job.2
    ⟨idx, job.1, r.caption⟩ :: batchEntries tok (some r.caption) (idx + 1) rest

/-- Does the string start with an ASCII uppercase letter? -/
def startsWithUpper (s : Str) : Bool :=
  match s with
  | [] => false
  | c :: _ => decide (65 ≤ c.toNat ∧ c.toNat ≤ 90)

/-- Is the character an ASCII letter? -/
def isAsciiAlpha (c : Char) : Bool :=
  decide ((65 ≤ c.toNat ∧ c.toNat ≤ 90) ∨ (97 ≤ c.toNat ∧ c.toNat ≤ 122))

/-- Does the string end with exactly one period (a period not preceded by
another period)? -/
def endsWithExactlyOneDot (s : Str) : Bool :=
  s.getLast? == some '.' && !(s.dropLast.getLast? == some '.')

/-- `os.path.splitext(p)[1]` for POSIX paths: the extension starting at the
last dot, unless that dot only leads the basename. -/
def splitext_ext (p : Str) : Str :=
  let sepIdx : Int :=
    match p.reverse.findIdx? (· == '/') with
    | none => -1
    | some j => ((p.length - 1 - j : Nat) : Int)
  let dotIdx : Int :=
    match p.reverse.findIdx? (· == '.') with
    | none => -1
    | some j => ((p.length - 1 - j : Nat) : Int)
  if sepIdx < dotIdx then
    if ((p.drop (sepIdx + 1).toNat).take (dotIdx - (sepIdx + 1)).toNat).all (· == '.') then
      []
    else
      p.drop dotIdx.toNat
  else []

/-- The tuple `(".jpg", ".jpeg", ".png")` from line 153 of the source. -/
def allowed_exts : List Str := [".jpg".data, ".jpeg".data, ".png".data]

/-- Is an uploaded file name accepted by the extension check on lines 152-153? -/
def isValidUpload (name : Str) : Bool :=
  allowed_exts.contains ((splitext_ext name).map Char.toLower)

/-- Lines 151-159 of the source: the upload loop of `image_analysis_page`.
Returns the saved image paths and the file names rejected with a diagnostic. -/
def process_uploads : List Str → List Str × List Str
  | [] => ([], [])
  | f :: rest =>
    let ext := (splitext_ext f).map Char.toLower
    let (paths, errs) := process_uploads rest
    if allowed_exts.contains ext then
      (("temp_images/".data ++ f) :: paths, errs)
    else
      (paths, f :: errs)

/-! Concrete inputs used by counterexamples and witnesses. -/

/-- A concrete token counter (token count = character count). -/
def tok0 : Str → Nat := fun s => s.length

/-- An oracle that always succeeds with the text `"cracks found"`. -/
def okOracle : Nat → ApiOutcome := fun _ => ApiOutcome.success "cracks found".data

/-- An oracle that always reports a rate limit. -/
def rlOracle : Nat → ApiOutcome := fun _ => ApiOutcome.rateLimited

/-- An oracle that always fails with a non-rate-limit error. -/
def errOracle : Nat → ApiOutcome := fun _ => ApiOutcome.apiError "boom".data

/-- Two rate limits, then success. -/
def rrsOracle : Nat → ApiOutcome := fun n =>
  if n < 2 then ApiOutcome.rateLimited else ApiOutcome.success "ok".data

/-- Three rate limits, then success. -/
def rrrsOracle : Nat → ApiOutcome := fun n =>
  if n < 3 then ApiOutcome.rateLimited else ApiOutcome.success "ok".data

/-- A one-image batch whose only remote attempt fails with a non-rate-limit
error. -/
def failJobs : List ImageJob := [("a.jpg".data, errOracle)]

/-- A two-image batch: the first image succeeds, the second is rate limited
on all attempts. -/
def staleJobs : List ImageJob := [("a.jpg".data, okOracle), ("b.jpg".data, rlOracle)]

/-- An optional caption that is nonempty whenever it is present (the
invariant maintained by the `comment` local across images). -/
def GoodOpt (o : Option Str) : Prop := ∀ c, o = some c → c ≠ []

/-! ### Helper lemmas -/

theorem char_toNat_ofNat (n : Nat) (h : n.isValidChar) : (Char.ofNat n).toNat = n := by
  rw [Char.ofNat, dif_pos h]
  rfl

theorem toUpper_range (c : Char) (h : isAsciiAlpha c = true) :
    65 ≤ c.toUpper.toNat ∧ c.toUpper.toNat ≤ 90 := by
  have h' : (65 ≤ c.toNat ∧ c.toNat ≤ 90) ∨ (97 ≤ c.toNat ∧ c.toNat ≤ 122) := by
    simpa [isAsciiAlpha] using h
  unfold Char.toUpper
  by_cases hl : c.toNat ≥ 97 ∧ c.toNat ≤ 122
  · rw [if_pos hl, char_toNat_ofNat _ (Or.inl (by omega))]
    omega
  · rw [if_neg hl]
    omega

theorem normalizeCaption_getLast (t : Str) :
    (normalizeCaption t).getLast? = some '.' := by
  unfold normalizeCaption
  by_cases h : (pyCapitalize (pyStrip t)).getLast? = some '.'
  · simp [h]
  · simp [h]

theorem normalizeCaption_ne_nil (t : Str) : normalizeCaption t ≠ [] := by
  intro h
  have h2 := normalizeCaption_getLast t
  rw [h] at h2
  simp at h2

theorem normalizeCaption_head (t : Str) (c : Char) (cs : Str)
    (h : pyStrip t = c :: cs) :
    (normalizeCaption t).head? = some c.toUpper := by
  simp only [normalizeCaption, h, pyCapitalize]
  split
  · rfl
  · simp

theorem processImage_allRL (tok : Str → Nat) (comment : Option Str)
    (oracle : Nat → ApiOutcome)
    (h : ∀ j, j < 3 → oracle j = ApiOutcome.rateLimited) :
    processImage tok comment oracle =
      ⟨comment.getD fallbackCaption, false, 0, [5, 10, 20], 3⟩ := by
  have h0 := h 0 (by omega)
  have h1 := h 1 (by omega)
  have h2 := h 2 (by omega)
  cases comment <;>
    simp [processImage, runAttempts, h0, h1, h2, Option.getD]

theorem estimate_cost_nonneg (tok : Str → Nat) (p r : Str) :
    0 ≤ estimate_cost tok p r := by
  unfold estimate_cost roundTo6
  have hx : (0 : ℚ) ≤ ((tok p : ℚ) * (5 / 1000) / 1000
      + (tok r : ℚ) * (15 / 1000) / 1000) * 1000000 := by positivity
  have hr : (0 : ℤ) ≤ round (((tok p : ℚ) * (5 / 1000) / 1000
      + (tok r : ℚ) * (15 / 1000) / 1000) * 1000000) := by
    rw [round_eq]
    exact Int.floor_nonneg.mpr (by linarith)
  have : (0 : ℚ) ≤ (round (((tok p : ℚ) * (5 / 1000) / 1000
      + (tok r : ℚ) * (15 / 1000) / 1000) * 1000000) : ℚ) := by
    exact_mod_cast hr
  positivity

theorem runAttempts_cost (tok : Str → Nat) (oracle : Nat → ApiOutcome) :
    ∀ remaining comment attempt delay,
      0 ≤ (runAttempts tok oracle comment attempt remaining delay).cost
      ∧ ((runAttempts tok oracle comment attempt remaining delay).success = false →
          (runAttempts tok oracle comment attempt remaining delay).cost = 0) := by
  intro remaining
  induction remaining with
  | zero => intro comment attempt delay; exact ⟨le_refl 0, fun _ => rfl⟩
  | succ r ih =>
    intro comment attempt delay
    cases houtcome : oracle attempt with
    | success text =>
      constructor
      · simp [runAttempts, houtcome]
        exact estimate_cost_nonneg tok build_prompt (normalizeCaption text)
      · intro hs
        simp [runAttempts, houtcome] at hs
    | rateLimited =>
      have := ih comment (attempt + 1) (delay * 2)
      constructor
      · simp [runAttempts, houtcome]
        exact this.1
      · intro hs
        simp [runAttempts, houtcome] at hs ⊢
        exact this.2 hs
    | apiError msg =>
      exact ⟨by simp [runAttempts, houtcome], fun _ => by simp [runAttempts, houtcome]⟩

theorem processImage_cost_nonneg (tok : Str → Nat) (comment : Option Str)
    (oracle : Nat → ApiOutcome) : 0 ≤ (processImage tok comment oracle).cost :=
  (runAttempts_cost tok oracle 3 comment 0 5).1

theorem processImage_cost_of_failure (tok : Str → Nat) (comment : Option Str)
    (oracle : Nat → ApiOutcome) (h : (processImage tok comment oracle).success = false) :
    (processImage tok comment oracle).cost = 0 :=
  (runAttempts_cost tok oracle 3 comment 0 5).2 h

theorem runAttempts_comment_good (tok : Str → Nat) (oracle : Nat → ApiOutcome) :
    ∀ remaining comment attempt delay, GoodOpt comment →
      GoodOpt (runAttempts tok oracle comment attempt remaining delay).comment := by
  intro remaining
  induction remaining with
  | zero => intro comment attempt delay h; exact h
  | succ r ih =>
    intro comment attempt delay h
    cases houtcome : oracle attempt with
    | success text =>
      intro c hc
      simp [runAttempts, houtcome] at hc
      rw [← hc]
      exact normalizeCaption_ne_nil text
    | rateLimited =>
      intro c hc
      simp only [runAttempts, houtcome] at hc
      exact ih comment (attempt + 1) (delay * 2) h c hc
    | apiError msg =>
      intro c hc
      simp [runAttempts, houtcome] at hc
      rw [← hc]
      simp [errorCaption]

theorem processImage_caption_ne_nil (tok : Str → Nat) (comment : Option Str)
    (oracle : Nat → ApiOutcome) (h : GoodOpt comment) :
    (processImage tok comment oracle).caption ≠ [] := by
  have hg := runAttempts_comment_good tok oracle 3 comment 0 5 h
  unfold processImage
  dsimp only
  cases hr : (runAttempts tok oracle comment 0 3 5).comment with
  | none => simp [hr, fallbackCaption]
  | some c =>
    simp [hr]
    exact hg c hr

theorem stepImage_entries (tok : Str → Nat) (st : RunState) (idx : Nat) (job : ImageJob) :
    (stepImage tok st idx job).entries =
      st.entries ++ [⟨idx, job.1, (processImage tok st.comment job.2).caption⟩] := by
  unfold stepImage
  dsimp only
  split <;> rfl

theorem stepImage_comment (tok : Str → Nat) (st : RunState) (idx : Nat) (job : ImageJob) :
    (stepImage tok st idx job).comment =
      some (processImage tok st.comment job.2).caption := by
  unfold stepImage
  dsimp only
  split <;> rfl

theorem stepImage_cost (tok : Str → Nat) (st : RunState) (idx : Nat) (job : ImageJob) :
    (stepImage tok st idx job).totalCost =
      st.totalCost + (processImage tok st.comment job.2).cost := by
  unfold stepImage
  dsimp only
  split <;> rfl

theorem runBatch_entries (tok : Str → Nat) (jobs : List ImageJob) :
    ∀ idx st, (runBatch tok jobs idx st).entries =
      st.entries ++ batchEntries tok st.comment idx jobs := by
  induction jobs with
  | nil => intro idx st; simp [runBatch, batchEntries]
  | cons job rest ih =>
    intro idx st
    rw [runBatch, ih, stepImage_entries, stepImage_comment, batchEntries]
    simp

theorem batchEntries_length (tok : Str → Nat) (jobs : List ImageJob) :
    ∀ comment idx, (batchEntries tok comment idx jobs).length = jobs.length := by
  induction jobs with
  | nil => intro comment idx; rfl
  | cons job rest ih =>
    intro comment idx
    simp only [batchEntries, List.length_cons, ih]

theorem batchEntries_map_path (tok : Str → Nat) (jobs : List ImageJob) :
    ∀ comment idx, (batchEntries tok comment idx jobs).map Entry.path =
      jobs.map Prod.fst := by
  induction jobs with
  | nil => intro comment idx; rfl
  | cons job rest ih =>
    intro comment idx
    simp only [batchEntries, List.map_cons, ih]

theorem batchEntries_map_idx (tok : Str → Nat) (jobs : List ImageJob) :
    ∀ comment idx, (batchEntries tok comment idx jobs).map Entry.idx =
      List.range' idx jobs.length := by
  induction jobs with
  | nil => intro comment idx; rfl
  | cons job rest ih =>
    intro comment idx
    simp only [batchEntries, List.map_cons, ih, List.length_cons, List.range'_succ]

theorem batchEntries_caption_ne_nil (tok : Str → Nat) (jobs : List ImageJob) :
    ∀ comment idx, GoodOpt comment →
      ∀ e ∈ batchEntries tok comment idx jobs, e.caption ≠ [] := by
  induction jobs with
  | nil => intro comment idx _ e he; simp [batchEntries] at he
  | cons job rest ih =>
    intro comment idx h e he
    simp only [batchEntries, List.mem_cons] at he
    rcases he with he | he
    · rw [he]
      exact processImage_caption_ne_nil tok comment job.2 h
    · refine ih (some (processImage tok comment job.2).caption) (idx + 1) ?_ e he
      intro c hc
      injection hc with hc
      rw [← hc]
      exact processImage_caption_ne_nil tok comment job.2 h

theorem runBatch_append (tok : Str → Nat) (l1 : List ImageJob) :
    ∀ l2 idx st, runBatch tok (l1 ++ l2) idx st =
      runBatch tok l2 (idx + l1.length) (runBatch tok l1 idx st) := by
  induction l1 with
  | nil => intro l2 idx st; simp [runBatch]
  | cons job rest ih =>
    intro l2 idx st
    have harith : idx + 1 + rest.length = idx + (rest.length + 1) := by omega
    show runBatch tok (rest ++ l2) (idx + 1) (stepImage tok st idx job) = _
    rw [ih, harith]
    rfl

theorem stepImage_breaks (tok : Str → Nat) (st : RunState) (idx : Nat) (job : ImageJob) :
    countBreaks (stepImage tok st idx job).blocks =
      countBreaks st.blocks + (if st.imagesOnPage + 1 = 2 then 1 else 0) := by
  unfold stepImage
  dsimp only
  split
  · rename_i hcond
    simp only [beq_iff_eq] at hcond
    simp [countBreaks, List.countP_append, isPageBreak, hcond]
  · rename_i hcond
    simp only [beq_iff_eq] at hcond
    simp [countBreaks, List.countP_append, isPageBreak, hcond]

theorem stepImage_imagesOnPage (tok : Str → Nat) (st : RunState) (idx : Nat) (job : ImageJob) :
    (stepImage tok st idx job).imagesOnPage =
      if st.imagesOnPage + 1 = 2 then 0 else st.imagesOnPage + 1 := by
  unfold stepImage
  dsimp only
  split
  · rename_i hcond
    simp only [beq_iff_eq] at hcond
    simp [hcond]
  · rename_i hcond
    simp only [beq_iff_eq] at hcond
    simp [hcond]

theorem runBatch_breaks (tok : Str → Nat) (jobs : List ImageJob) :
    ∀ idx st, st.imagesOnPage = 0 ∨ st.imagesOnPage = 1 →
      countBreaks (runBatch tok jobs idx st).blocks =
        countBreaks st.blocks + (st.imagesOnPage + jobs.length) / 2 := by
  induction jobs with
  | nil =>
    intro idx st h
    rcases h with h | h <;> simp [runBatch, h]
  | cons job rest ih =>
    intro idx st h
    rw [runBatch, ih (idx + 1) _ ?_, stepImage_breaks, stepImage_imagesOnPage]
    · rcases h with h | h <;> simp [h, List.length_cons] <;> omega
    · rw [stepImage_imagesOnPage]
      rcases h with h | h <;> simp [h]

theorem stepImage_blocks_no_break (tok : Str → Nat) (st : RunState) (idx : Nat)
    (job : ImageJob) (h : st.imagesOnPage = 0) :
    (stepImage tok st idx job).blocks =
      st.blocks ++ [Block.numberPara idx, Block.imagePara job.1,
        Block.captionPara ("Assessment: ".data
          ++ (processImage tok st.comment job.2).caption), Block.blankPara] := by
  unfold stepImage
  dsimp only
  rw [if_neg]
  simp [h]

theorem runBatch_last_blank (tok : Str → Nat) (jobs : List ImageJob) :
    ∀ idx st, st.imagesOnPage = 0 ∨ st.imagesOnPage = 1 →
      (st.imagesOnPage + jobs.length) % 2 = 1 → jobs ≠ [] →
      (runBatch tok jobs idx st).blocks.getLast? = some Block.blankPara := by
  induction jobs with
  | nil => intro idx st _ _ hne; exact absurd rfl hne
  | cons job rest ih =>
    intro idx st hinv hpar _
    cases rest with
    | nil =>
      have hp0 : st.imagesOnPage = 0 := by
        rcases hinv with h | h
        · exact h
        · rw [h] at hpar; simp at hpar
      show (runBatch tok [] (idx + 1) (stepImage tok st idx job)).blocks.getLast?
        = some Block.blankPara
      rw [runBatch, stepImage_blocks_no_break tok st idx job hp0]
      have hsplit : st.blocks ++ [Block.numberPara idx, Block.imagePara job.1,
          Block.captionPara ("Assessment: ".data
            ++ (processImage tok st.comment job.2).caption), Block.blankPara] =
          (st.blocks ++ [Block.numberPara idx, Block.imagePara job.1,
            Block.captionPara ("Assessment: ".data
              ++ (processImage tok st.comment job.2).caption)]) ++ [Block.blankPara] := by
        simp
      rw [hsplit, List.getLast?_concat]
    | cons job2 rest2 =>
      show (runBatch tok (job2 :: rest2) (idx + 1)
        (stepImage tok st idx job)).blocks.getLast? = some Block.blankPara
      refine ih (idx + 1) (stepImage tok st idx job) ?_ ?_ (by simp)
      · rw [stepImage_imagesOnPage]
        rcases hinv with h | h <;> simp [h]
      · rw [stepImage_imagesOnPage]
        rcases hinv with h | h <;> simp [h, List.length_cons] at hpar ⊢ <;> omega

/-! ### Claim theorems -/

/-- C1: for every input list of N images (with arbitrary per-image remote
outcomes), `generate_report` produces exactly N entries, one per input image
in input order (1-based indices 1..N, paths matching the input), each with a
non-empty caption; no per-image failure aborts the remaining images. -/
theorem c1_one_entry_per_image (tok : Str → Nat) (jobs : List ImageJob) :
    (generate_report tok jobs).entries.length = jobs.length
    ∧ (generate_report tok jobs).entries.map Entry.path = jobs.map Prod.fst
    ∧ (generate_report tok jobs).entries.map Entry.idx = List.range' 1 jobs.length
    ∧ (generate_report tok jobs).entries.all (fun e => !e.caption.isEmpty) = true := by
  have hent : (generate_report tok jobs).entries = batchEntries tok none 1 jobs := by
    unfold generate_report
    rw [runBatch_entries]
    rfl
  refine ⟨?_, ?_, ?_, ?_⟩
  · rw [hent, batchEntries_length]
  · rw [hent, batchEntries_map_path]
  · rw [hent, batchEntries_map_idx]
  · rw [hent, List.all_eq_true]
    intro e he
    have hne := batchEntries_caption_ne_nil tok jobs none 1
      (fun c hc => by cases hc) e he
    simpa using hne

/-- C3 counterexample: for the successful response text `" 3 CRACKS.. "` the
stored caption is `"3 cracks.."`: it is not the trimmed response with only the
first letter capitalized (the rest got lowercased), it does not start with an
uppercase letter, and it does not end with exactly one trailing period. -/
theorem c3_counterexample :
    normalizeCaption " 3 CRACKS.. ".data = "3 cracks..".data
    ∧ normalizeCaption " 3 CRACKS.. ".data ≠ "3 CRACKS..".data
    ∧ startsWithUpper (normalizeCaption " 3 CRACKS.. ".data) = false
    ∧ endsWithExactlyOneDot (normalizeCaption " 3 CRACKS.. ".data) = false := by
  refine ⟨by decide, by decide, by decide, by decide⟩

/-- C3 (amended): for every caption produced by a successful remote
assessment, the stored caption is the response with surrounding whitespace
trimmed, then Python-capitalized (first character uppercased, the remaining
characters lowercased), with a trailing period appended when missing; the
result is non-empty and ends with a period (possibly preceded by further
periods from the response), and it starts with an uppercase letter whenever
the trimmed response starts with an ASCII letter. -/
theorem c3_normalized_captions (resp : Str) :
    normalizeCaption resp ≠ []
    ∧ (normalizeCaption resp).getLast? = some '.'
    ∧ ∀ c cs, pyStrip resp = c :: cs → isAsciiAlpha c = true →
        startsWithUpper (normalizeCaption resp) = true := by
  refine ⟨normalizeCaption_ne_nil resp, normalizeCaption_getLast resp, ?_⟩
  intro c cs hstrip halpha
  have hhead := normalizeCaption_head resp c cs hstrip
  have hrange := toUpper_range c halpha
  cases hform : normalizeCaption resp with
  | nil => exact absurd hform (normalizeCaption_ne_nil resp)
  | cons d ds =>
    rw [hform] at hhead
    simp only [List.head?_cons, Option.some_inj] at hhead
    rw [← hhead] at hrange
    simp [startsWithUpper, hrange]

/-- C3 witness: a concrete successful response whose caption satisfies the
amended properties. -/
theorem c3_normalized_captions_witness :
    normalizeCaption " visible cracks ".data ≠ []
    ∧ (normalizeCaption " visible cracks ".data).getLast? = some '.'
    ∧ startsWithUpper (normalizeCaption " visible cracks ".data) = true := by
  obtain ⟨h1, h2, h3⟩ := c3_normalized_captions " visible cracks ".data
  exact ⟨h1, h2, h3 'v' "isible cracks".data (by decide) (by decide)⟩

/-- C4: the cost estimator returns
`inputTokenCount * (0.005 / 1000) + outputTokenCount * (0.015 / 1000)`
(token counts supplied by the tokenizer), rounded to 6 decimal places —
the result is an integer multiple of `10^-6`. -/
theorem c4_estimate_cost (tok : Str → Nat) (prompt_text response_text : Str) :
    estimate_cost tok prompt_text response_text =
      roundTo6 ((tok prompt_text : ℚ) * ((5 / 1000) / 1000)
        + (tok response_text : ℚ) * ((15 / 1000) / 1000))
    ∧ (estimate_cost tok prompt_text response_text * 1000000).den = 1 := by
  constructor
  · unfold estimate_cost
    congr 1
    ring
  · unfold estimate_cost roundTo6
    rw [div_mul_cancel₀ _ (by norm_num : (1000000 : ℚ) ≠ 0)]
    exact Rat.den_intCast _

/-- C6: for a batch of N entries the document contains exactly `N / 2`
(floor) page breaks, and when N is odd no break follows the final trailing
entry (the document ends with the entry's blank paragraph instead). -/
theorem c6_page_breaks (tok : Str → Nat) (jobs : List ImageJob) :
    countBreaks (generate_report tok jobs).blocks = jobs.length / 2
    ∧ (jobs.length % 2 = 1 →
        (generate_report tok jobs).blocks.getLast? = some Block.blankPara) := by
  constructor
  · unfold generate_report
    rw [runBatch_breaks tok jobs 1 initState (Or.inl rfl)]
    simp [initState, countBreaks]
  · intro hodd
    unfold generate_report
    refine runBatch_last_blank tok jobs 1 initState (Or.inl rfl) (by simpa [initState] using hodd) ?_
    intro h
    rw [h] at hodd
    simp at hodd

/-- C6 witness: a concrete odd batch (one image). -/
theorem c6_page_breaks_witness :
    countBreaks (generate_report tok0 failJobs).blocks = failJobs.length / 2
    ∧ (generate_report tok0 failJobs).blocks.getLast? = some Block.blankPara :=
  ⟨(c6_page_breaks tok0 failJobs).1, (c6_page_breaks tok0 failJobs).2 (by decide)⟩

/-- C7: when an attempt fails with a non-rate-limit error after k
rate-limited attempts (k < 3), no further attempts are made (exactly k + 1
calls) and the caption is immediately the fallback string embedding the
error detail. -/
theorem c7_other_error_no_retry (tok : Str → Nat) (comment : Option Str)
    (oracle : Nat → ApiOutcome) (k : Nat) (msg : Str)
    (hk : k < 3) (hbefore : ∀ j, j < k → oracle j = ApiOutcome.rateLimited)
    (herr : oracle k = ApiOutcome.apiError msg) :
    (processImage tok comment oracle).caption = errorCaption msg
    ∧ (processImage tok comment oracle).calls = k + 1
    ∧ (processImage tok comment oracle).success = false := by
  interval_cases k
  · refine ⟨?_, ?_, ?_⟩ <;> simp [processImage, runAttempts, herr]
  · have h0 := hbefore 0 (by omega)
    refine ⟨?_, ?_, ?_⟩ <;> simp [processImage, runAttempts, h0, herr]
  · have h0 := hbefore 0 (by omega)
    have h1 := hbefore 1 (by omega)
    refine ⟨?_, ?_, ?_⟩ <;> simp [processImage, runAttempts, h0, h1, herr]

/-- C7 witness: an immediate non-rate-limit failure on the first attempt. -/
theorem c7_other_error_no_retry_witness :
    (processImage tok0 none errOracle).caption = errorCaption "boom".data
    ∧ (processImage tok0 none errOracle).calls = 0 + 1
    ∧ (processImage tok0 none errOracle).success = false :=
  c7_other_error_no_retry tok0 none errOracle 0 "boom".data (by omega)
    (fun j hj => absurd hj (by omega)) rfl

/-- C8 counterexample: on 3 consecutive rate-limit responses followed by a
success, the code sleeps three times (5 s, 10 s, 20 s — including after the
final failed attempt) and never succeeds, rather than sleeping twice and
succeeding on the 3rd attempt. -/
theorem c8_counterexample :
    (processImage tok0 none rrrsOracle).sleeps = [5, 10, 20]
    ∧ (processImage tok0 none rrrsOracle).success = false
    ∧ (processImage tok0 none rrrsOracle).calls = 3 := by
  refine ⟨by decide, by decide, by decide⟩

/-- C8 (amended): given 2 consecutive rate-limit responses followed by a
success, the retry loop sleeps exactly twice, with delays 5 s then 10 s, and
succeeds on the 3rd attempt, within the maxAttempts = 3 bound. -/
theorem c8_backoff_schedule (tok : Str → Nat) (comment : Option Str)
    (oracle : Nat → ApiOutcome) (text : Str)
    (h0 : oracle 0 = ApiOutcome.rateLimited)
    (h1 : oracle 1 = ApiOutcome.rateLimited)
    (h2 : oracle 2 = ApiOutcome.success text) :
    (processImage tok comment oracle).sleeps = [5, 10]
    ∧ (processImage tok comment oracle).success = true
    ∧ (processImage tok comment oracle).calls = 3 := by
  refine ⟨?_, ?_, ?_⟩ <;> simp [processImage, runAttempts, h0, h1, h2]

/-- C8 witness: the amended schedule on a concrete oracle. -/
theorem c8_backoff_schedule_witness :
    (processImage tok0 none rrsOracle).sleeps = [5, 10]
    ∧ (processImage tok0 none rrsOracle).success = true
    ∧ (processImage tok0 none rrsOracle).calls = 3 :=
  c8_backoff_schedule tok0 none rrsOracle "ok".data rfl rfl rfl

theorem costAfter_succ (tok : Str → Nat) (jobs : List ImageJob) (i : Nat)
    (h : i < jobs.length) :
    costAfter tok jobs (i + 1) = costAfter tok jobs i
      + (processImage tok (runBatch tok (jobs.take i) 1 initState).comment
          jobs[i].2).cost := by
  unfold costAfter
  rw [← List.take_concat_get' jobs i h, runBatch_append]
  show (stepImage tok (runBatch tok (jobs.take i) 1 initState)
    (1 + (jobs.take i).length) jobs[i]).totalCost = _
  rw [stepImage_cost]

/-- C5: within one run, the accumulated total cost never decreases between
successive images, and an image whose assessment failed (fallback caption)
contributes exactly zero to the total. -/
theorem c5_cost_monotone (tok : Str → Nat) (jobs : List ImageJob) (i : Nat) :
    costAfter tok jobs i ≤ costAfter tok jobs (i + 1)
    ∧ ∀ (h : i < jobs.length),
        (processImage tok (runBatch tok (jobs.take i) 1 initState).comment
          jobs[i].2).success = false →
        costAfter tok jobs (i + 1) = costAfter tok jobs i := by
  by_cases h : i < jobs.length
  · constructor
    · rw [costAfter_succ tok jobs i h]
      have hnn := processImage_cost_nonneg tok
        (runBatch tok (jobs.take i) 1 initState).comment jobs[i].2
      linarith
    · intro h' hfail
      rw [costAfter_succ tok jobs i h', processImage_cost_of_failure _ _ _ hfail]
      ring
  · have heq : jobs.take (i + 1) = jobs.take i := by
      rw [List.take_of_length_le (by omega), List.take_of_length_le (by omega)]
    have hcc : costAfter tok jobs (i + 1) = costAfter tok jobs i := by
      unfold costAfter
      rw [heq]
    exact ⟨le_of_eq hcc.symm, fun h' => absurd h' h⟩

/-- C5 witness: a one-image batch whose assessment fails contributes zero. -/
theorem c5_cost_monotone_witness :
    costAfter tok0 failJobs 0 ≤ costAfter tok0 failJobs 1
    ∧ costAfter tok0 failJobs 1 = costAfter tok0 failJobs 0 := by
  have h := c5_cost_monotone tok0 failJobs 0
  exact ⟨h.1, h.2 (by decide) (by decide)⟩

theorem process_uploads_cons (f : Str) (rest : List Str) :
    process_uploads (f :: rest) =
      if isValidUpload f then
        (("temp_images/".data ++ f) :: (process_uploads rest).1,
          (process_uploads rest).2)
      else ((process_uploads rest).1, f :: (process_uploads rest).2) := by
  rcases hpe : process_uploads rest with ⟨paths, errs⟩
  simp only [process_uploads, isValidUpload, hpe]

/-- C9: uploaded files whose extension (case-insensitively) is not jpg, jpeg
or png are rejected individually with a diagnostic and excluded, while the
remaining files are saved and processed in order; in particular, for uploads
[a.jpg, b.txt, c.png] exactly a.jpg and c.png are processed and b.txt is
rejected, without aborting the batch. -/
theorem c9_extension_filter :
    (∀ files : List Str,
      (process_uploads files).1 =
        (files.filter isValidUpload).map (fun f => "temp_images/".data ++ f)
      ∧ (process_uploads files).2 = files.filter (fun f => !isValidUpload f))
    ∧ process_uploads ["a.jpg".data, "b.txt".data, "c.png".data] =
        (["temp_images/a.jpg".data, "temp_images/c.png".data], ["b.txt".data]) := by
  constructor
  · intro files
    induction files with
    | nil => exact ⟨rfl, rfl⟩
    | cons f rest ih =>
      rw [process_uploads_cons]
      cases h : isValidUpload f with
      | true => simp [List.filter_cons, h, ih.1, ih.2]
      | false => simp [List.filter_cons, h, ih.1, ih.2]
  · decide

theorem batchEntries_stale (tok : Str → Nat) (jobs : List ImageJob) :
    ∀ comment idx k (hk : k + 1 < jobs.length)
      (hRL : ∀ j, j < 3 → (jobs.get ⟨k + 1, hk⟩).2 j = ApiOutcome.rateLimited)
      (h1 : k + 1 < (batchEntries tok comment idx jobs).length)
      (h2 : k < (batchEntries tok comment idx jobs).length),
      ((batchEntries tok comment idx jobs).get ⟨k + 1, h1⟩).caption =
        ((batchEntries tok comment idx jobs).get ⟨k, h2⟩).caption := by
  induction jobs with
  | nil => intro comment idx k hk hRL h1 h2; simp at hk
  | cons job rest ih =>
    intro comment idx k hk hRL h1 h2
    cases k with
    | zero =>
      cases rest with
      | nil => simp at hk
      | cons job2 rest2 =>
        have hj : ((job :: job2 :: rest2 : List ImageJob).get ⟨1, hk⟩) = job2 := rfl
        rw [hj] at hRL
        simp only [batchEntries, List.get_eq_getElem, List.getElem_cons_succ,
          List.getElem_cons_zero]
        rw [processImage_allRL tok
          (some (processImage tok comment job.2).caption) job2.2 hRL]
        rfl
    | succ k' =>
      have hk' : k' + 1 < rest.length := by simpa using hk
      have hRL' : ∀ j, j < 3 →
          (rest.get ⟨k' + 1, hk'⟩).2 j = ApiOutcome.rateLimited := by
        intro j hj
        have hsh : ((job :: rest : List ImageJob).get ⟨k' + 1 + 1, hk⟩) =
            rest.get ⟨k' + 1, hk'⟩ := rfl
        rw [← hsh]
        exact hRL j hj
      have h1' : k' + 1 < (batchEntries tok
          (some (processImage tok comment job.2).caption) (idx + 1) rest).length := by
        rw [batchEntries_length]
        omega
      have h2' : k' < (batchEntries tok
          (some (processImage tok comment job.2).caption) (idx + 1) rest).length := by
        rw [batchEntries_length]
        omega
      have hrec := ih (some (processImage tok comment job.2).caption) (idx + 1)
        k' hk' hRL' h1' h2'
      simpa only [batchEntries, List.get_eq_getElem, List.getElem_cons_succ]
        using hrec

/-- C10: when rate-limit retries are exhausted for the image at position
k + 2 (1-based; any image after the first), its recorded caption equals the
caption of the immediately preceding entry — the stale value of the
`comment` local — while the generic "Could not analyze image after retries."
fallback appears only when no caption was ever assigned in the run, i.e.
when the exhausted image is the very first one. -/
theorem c10_stale_fallback :
    (∀ (tok : Str → Nat) (jobs : List ImageJob) (k : Nat)
      (hk : k + 1 < jobs.length)
      (hRL : ∀ j, j < 3 → (jobs.get ⟨k + 1, hk⟩).2 j = ApiOutcome.rateLimited)
      (h1 : k + 1 < (generate_report tok jobs).entries.length)
      (h2 : k < (generate_report tok jobs).entries.length),
      ((generate_report tok jobs).entries.get ⟨k + 1, h1⟩).caption =
        ((generate_report tok jobs).entries.get ⟨k, h2⟩).caption)
    ∧ (∀ (tok : Str → Nat) (job : ImageJob) (rest : List ImageJob)
      (hRL : ∀ j, j < 3 → job.2 j = ApiOutcome.rateLimited)
      (h0 : 0 < (generate_report tok (job :: rest)).entries.length),
      ((generate_report tok (job :: rest)).entries.get ⟨0, h0⟩).caption =
        fallbackCaption) := by
  have hent : ∀ (tok : Str → Nat) (jobs : List ImageJob),
      (generate_report tok jobs).entries = batchEntries tok none 1 jobs := by
    intro tok jobs
    unfold generate_report
    rw [runBatch_entries]
    rfl
  have hget : ∀ (l l' : List Entry) (h : l = l') (i : Nat)
      (hi : i < l.length) (hi' : i < l'.length),
      (l.get ⟨i, hi⟩).caption = (l'.get ⟨i, hi'⟩).caption := by
    intro l l' h i hi hi'
    subst h
    rfl
  constructor
  · intro tok jobs k hk hRL h1 h2
    have h1' : k + 1 < (batchEntries tok none 1 jobs).length := by
      rw [← hent]; exact h1
    have h2' : k < (batchEntries tok none 1 jobs).length := by
      rw [← hent]; exact h2
    rw [hget _ _ (hent tok jobs) (k + 1) h1 h1', hget _ _ (hent tok jobs) k h2 h2']
    exact batchEntries_stale tok jobs none 1 k hk hRL h1' h2'
  · intro tok job rest hRL h0
    have h0' : 0 < (batchEntries tok none 1 (job :: rest)).length := by
      rw [← hent]; exact h0
    rw [hget _ _ (hent tok (job :: rest)) 0 h0 h0']
    simp only [batchEntries, List.get_eq_getElem, List.getElem_cons_zero]
    rw [processImage_allRL tok none job.2 hRL]
    rfl

/-- C10 witness: image 1 succeeds with caption "Cracks found.", image 2
exhausts its rate-limit retries and records that same stale caption. -/
theorem c10_stale_fallback_witness :
    ((generate_report tok0 staleJobs).entries.get ⟨1, by decide⟩).caption =
      ((generate_report tok0 staleJobs).entries.get ⟨0, by decide⟩).caption :=
  c10_stale_fallback.1 tok0 staleJobs 0 (by decide) (fun j hj => rfl)
    (by decide) (by decide)

/-- C2 failing input, evaluated: image 1 succeeds with response text
"cracks found"; image 2 hits the rate limit on all 3 attempts.  The second
entry's caption is "Cracks found." — the stale caption of image 1 — not a
fallback string flagging the failure (the loop does not crash, but the
spec's required failure-flagging caption is absent). -/
theorem c2_exhaustion_stale_caption :
    ((generate_report tok0 staleJobs).entries.map Entry.caption) =
      ["Cracks found.".data, "Cracks found.".data]
    ∧ (processImage tok0 (some "Cracks found.".data) rlOracle).success = false := by
  refine ⟨by decide, by decide⟩
